import Mathlib

/-!
Verification of the `cdr-encoding-size-derive` crate (file `src/lib.rs`).

The crate is a derive macro: from a `DeriveInput` (a parsed structure
definition) it generates an implementation of the trait
`cdr_encoding_size::CdrEncodingSize`, whose method returns the token
expression produced by `cdr_size_sum`, with the generics augmented by
`add_trait_bounds`.

We embed the relevant fragment of the `syn` syntax tree, the two functions
`add_trait_bounds` and `cdr_size_sum`, and the shape of the generated token
expression (`SizeExpr`).  The value type `CdrEncodingMaxSize` and its
addition live in the sibling crate `cdr_encoding_size`, which is not part of
this repository; they are modelled from the specification.
-/

namespace CdrDerive

/-- A source span (`proc_macro2::Span`), abstracted to a number identifying a
source location. -/
abbrev Span := Nat

/-- A type reference (`syn::Type`), abstracted to its textual form. -/
abbrev TypeRef := String

/-- A struct field (`syn::Field`): an optional name, a type, and the span of
the field in the source. -/
structure Field where
  name : Option String
  ty : TypeRef
  span : Span
  deriving DecidableEq, Repr

/-- The shape of a struct body (`syn::Fields`): named fields, positional
(unnamed) fields, or a unit struct. -/
inductive Fields where
  | Named (fields : List Field)
  | Unnamed (fields : List Field)
  | Unit
  deriving DecidableEq, Repr

/-- The body of a type definition (`syn::Data`): struct, enum, or union.
The enum and union payloads are carried but never inspected by the macro
(it matches them with `_`). -/
inductive Data where
  | Struct (fields : Fields)
  | Enum (variants : List (String × Fields))
  | Union (fields : List Field)
  deriving DecidableEq, Repr

/-- A type parameter (`syn::TypeParam`): its identifier and its list of
trait bounds, each bound abstracted to its textual path. -/
structure TypeParam where
  ident : String
  bounds : List String
  deriving DecidableEq, Repr

/-- A generic parameter (`syn::GenericParam`): a lifetime, a type
parameter, or a const parameter. -/
inductive GenericParam where
  | Lifetime (name : String)
  | Type (tp : TypeParam)
  | Const (name : String)
  deriving DecidableEq, Repr

/-- The generics of a definition (`syn::Generics`): the ordered list of its
generic parameters. -/
structure Generics where
  params : List GenericParam
  deriving DecidableEq, Repr

/-- The parsed derive input (`syn::DeriveInput`): the type name, its
generics, and its body. -/
structure DeriveInput where
  ident : String
  generics : Generics
  data : Data
  deriving DecidableEq, Repr

/-- The trait path the macro appends to every type parameter:
`cdr_encoding_size::CdrEncodingSize`. -/
def capBound : String := "cdr_encoding_size::CdrEncodingSize"

/-- Embeds `add_trait_bounds` of `src/lib.rs`: for every generic parameter
that is a type parameter, push the bound `cdr_encoding_size::CdrEncodingSize`
onto its bound list; leave lifetime and const parameters as they are. -/
def add_trait_bounds (generics : Generics) : Generics :=
  ⟨generics.params.map fun param =>
    match param with
    | .Type tp => .Type ⟨tp.ident, tp.bounds ++ [capBound]⟩
    | other => other⟩

/-- The generated size expression, as a token tree.  `bytes n` stands for
`cdr_encoding_size::CdrEncodingMaxSize::Bytes(n)`; `call sp ty` stands for
`<ty>::cdr_encoding_max_size()` spanned at `sp`; `add` is the `+` between
them (left associative, as in the emitted token stream). -/
inductive SizeExpr where
  | bytes (n : Nat)
  | add (a b : SizeExpr)
  | call (sp : Span) (ty : TypeRef)
  deriving DecidableEq, Repr

/-- Embeds `cdr_size_sum` of `src/lib.rs`.  For a struct with named or
unnamed fields it emits `Bytes(0) + <ty1>::cdr_encoding_max_size() + ...`,
each call spanned with the span of its field (`quote_spanned`); for a unit
struct it emits `Bytes(0)`; for an enum or union it panics with
`unimplemented!()`, modelled as an error carrying the panic message. -/
def cdr_size_sum : Data → Except String SizeExpr
  | .Struct (.Named fields) =>
      .ok (fields.foldl (fun e f => .add e (.call f.span f.ty)) (.bytes 0))
  | .Struct (.Unnamed fields) =>
      .ok (fields.foldl (fun e f => .add e (.call f.span f.ty)) (.bytes 0))
  | .Struct .Unit => .ok (.bytes 0)
  | .Enum _ => .error "not implemented"
  | .Union _ => .error "not implemented"

/-- The generated impl block: the type name, the augmented generics of the
impl, and the body of `cdr_encoding_max_size`. -/
structure GeneratedImpl where
  name : String
  generics : Generics
  body : SizeExpr
  deriving DecidableEq, Repr

/-- Embeds `derive_cdr_encoding_size` of `src/lib.rs`: augment the generics
with `add_trait_bounds`, generate the sum with `cdr_size_sum`, and emit the
impl of `cdr_encoding_size::CdrEncodingSize` whose method body is the sum. -/
def derive_cdr_encoding_size (input : DeriveInput) : Except String GeneratedImpl :=
  match cdr_size_sum input.data with
  | .error e => .error e
  | .ok sum => .ok ⟨input.ident, add_trait_bounds input.generics, sum⟩

/-- Modelled from the spec: the Size-Model type `CdrEncodingMaxSize` of the
sibling crate `cdr_encoding_size` is not under this repository; the spec
gives it the finite case `Bytes(n)`. -/
inductive CdrEncodingMaxSize where
  | Bytes (n : Nat)
  deriving DecidableEq, Repr

namespace CdrEncodingMaxSize

/-- Modelled from the spec: `add(a, b)` of the Size-Model returns
`Bytes(a.n + b.n)` in the finite case. -/
def add : CdrEncodingMaxSize → CdrEncodingMaxSize → CdrEncodingMaxSize
  | Bytes a, Bytes b => Bytes (a + b)

/-- Modelled from the spec: `zero()` of the Size-Model returns `Bytes(0)`. -/
def zero : CdrEncodingMaxSize := Bytes 0

/-- The byte count of a finite Size-Model. -/
def toNat : CdrEncodingMaxSize → Nat
  | Bytes n => n

end CdrEncodingMaxSize

/-- Evaluation of a generated size expression under an environment giving,
for each type, the Size-Model its registered `cdr_encoding_max_size`
returns. -/
def SizeExpr.eval (env : TypeRef → CdrEncodingMaxSize) : SizeExpr → CdrEncodingMaxSize
  | .bytes n => .Bytes n
  | .add a b => (a.eval env).add (b.eval env)
  | .call _ ty => env ty

/-- The per-field size-resolution calls of a generated expression, in
left-to-right order, each with the span it carries. -/
def SizeExpr.callList : SizeExpr → List (Span × TypeRef)
  | .bytes _ => []
  | .add a b => a.callList ++ b.callList
  | .call sp ty => [(sp, ty)]

/-- Modelled from the spec: the compiler checks each generated size
resolution call at build time; a call `<ty>::cdr_encoding_max_size()` where
`ty` lacks the capability is an error reported at the span the call
carries.  Subexpressions are checked left to right and the first error is
reported. -/
def SizeExpr.resolve (hasCap : TypeRef → Bool) : SizeExpr → Except Span Unit
  | .bytes _ => .ok ()
  | .add a b =>
      match a.resolve hasCap with
      | .error sp => .error sp
      | .ok _ => b.resolve hasCap
  | .call sp ty => if hasCap ty then .ok () else .error sp

/-- The first field of the list whose type lacks the capability, if any. -/
def firstLacking (hasCap : TypeRef → Bool) : List Field → Option Field
  | [] => none
  | f :: fs => if hasCap f.ty then firstLacking hasCap fs else some f

/-- Modelled from the spec: the compiler accepts an instantiation of a
generics list with type arguments (one argument per parameter, in order)
only if, for every type parameter, its argument satisfies every bound of
the parameter; `satisfies ty b` tells whether type `ty` implements the
trait named `b`. -/
def instantiationAccepted (satisfies : TypeRef → String → Bool)
    (g : Generics) (args : List TypeRef) : Bool :=
  (g.params.zip args).all fun pa =>
    match pa.1 with
    | .Type tp => tp.bounds.all (satisfies pa.2)
    | _ => true

/-- Evaluating the left-associated sum emitted for a field list, starting
from any initial expression, is the left fold of `add` over the fields. -/
theorem SizeExpr.eval_foldl_add (env : TypeRef → CdrEncodingMaxSize)
    (fs : List Field) (init : SizeExpr) :
    (fs.foldl (fun e f => SizeExpr.add e (.call f.span f.ty)) init).eval env
      = fs.foldl (fun a f => a.add (env f.ty)) (init.eval env) := by
  induction fs generalizing init with
  | nil => rfl
  | cons f fs ih =>
      rw [List.foldl_cons, List.foldl_cons, ih]
      rfl

/-- Folding `add` over a field list starting from `Bytes n` yields `Bytes`
of `n` plus the sum of the fields' byte counts. -/
theorem foldl_add_Bytes (env : TypeRef → CdrEncodingMaxSize)
    (fs : List Field) (n : Nat) :
    fs.foldl (fun a f => a.add (env f.ty)) (CdrEncodingMaxSize.Bytes n)
      = CdrEncodingMaxSize.Bytes
          (n + (fs.map fun f => (env f.ty).toNat).sum) := by
  induction fs generalizing n with
  | nil => simp
  | cons f fs ih =>
      cases h : env f.ty with
      | Bytes m =>
          have step : (CdrEncodingMaxSize.Bytes n).add (env f.ty)
              = CdrEncodingMaxSize.Bytes (n + m) := by rw [h]; rfl
          rw [List.foldl_cons, step, ih]
          simp [h, CdrEncodingMaxSize.toNat, Nat.add_assoc]

/-- The emitted sum for a field list evaluates to `Bytes` of the sum of the
fields' byte counts. -/
theorem SizeExpr.eval_gen (env : TypeRef → CdrEncodingMaxSize)
    (fs : List Field) :
    (fs.foldl (fun e f => SizeExpr.add e (.call f.span f.ty))
        (.bytes 0)).eval env
      = CdrEncodingMaxSize.Bytes ((fs.map fun f => (env f.ty).toNat).sum) := by
  rw [SizeExpr.eval_foldl_add]
  simpa using foldl_add_Bytes env fs 0

/-- The emitted sum for a field list contains exactly one resolution call
per field, in declaration order, spanned with the field's span. -/
theorem SizeExpr.callList_foldl_add (fs : List Field) (init : SizeExpr) :
    (fs.foldl (fun e f => SizeExpr.add e (.call f.span f.ty)) init).callList
      = init.callList ++ fs.map fun f => (f.span, f.ty) := by
  induction fs generalizing init with
  | nil => simp
  | cons f fs ih => simp [List.foldl_cons, ih, SizeExpr.callList]

/-- Resolving the emitted sum for a field list reports, after whatever the
initial expression reports, the span of the first field whose type lacks
the capability. -/
theorem SizeExpr.resolve_foldl_add (hasCap : TypeRef → Bool)
    (fs : List Field) (init : SizeExpr) :
    (fs.foldl (fun e f => SizeExpr.add e (.call f.span f.ty))
        init).resolve hasCap
      = match init.resolve hasCap with
        | .error sp => .error sp
        | .ok _ =>
            match firstLacking hasCap fs with
            | some f => .error f.span
            | none => .ok () := by
  induction fs generalizing init with
  | nil =>
      cases h : init.resolve hasCap with
      | error sp => simp [h, firstLacking]
      | ok u => cases u; simp [h, firstLacking]
  | cons f fs ih =>
      rw [List.foldl_cons, ih]
      cases h : init.resolve hasCap with
      | error sp => simp [SizeExpr.resolve, h]
      | ok u =>
          cases u
          cases hc : hasCap f.ty with
          | true => simp [SizeExpr.resolve, h, hc, firstLacking]
          | false => simp [SizeExpr.resolve, h, hc, firstLacking]

/-- Claim C1: for every structure with named or positional fields, the
generated size computation evaluates to the left fold that starts from
`zero()` (that is, `Bytes(0)`) and, for each field in declaration order,
resolves the Size-Model of the field by delegating to the field type and
combines it with the running total via `add`. -/
theorem c1_aggregate_sum_is_foldl (fields : List Field)
    (env : TypeRef → CdrEncodingMaxSize) :
    (∃ e, cdr_size_sum (.Struct (.Named fields)) = .ok e ∧
        e.eval env = fields.foldl (fun acc f => acc.add (env f.ty))
          CdrEncodingMaxSize.zero) ∧
    (∃ e, cdr_size_sum (.Struct (.Unnamed fields)) = .ok e ∧
        e.eval env = fields.foldl (fun acc f => acc.add (env f.ty))
          CdrEncodingMaxSize.zero) := by
  refine ⟨⟨_, rfl, ?_⟩, ⟨_, rfl, ?_⟩⟩ <;> rw [SizeExpr.eval_foldl_add] <;> rfl

/-- Claim C2: for every structure with no fields (unit shape), the computed
Size-Model is exactly `zero()`, that is `Bytes(0)`. -/
theorem c2_unit_struct_is_zero :
    cdr_size_sum (.Struct .Unit) = .ok (.bytes 0) ∧
    ∀ env : TypeRef → CdrEncodingMaxSize,
      (SizeExpr.bytes 0).eval env = CdrEncodingMaxSize.zero :=
  ⟨rfl, fun _ => rfl⟩

/-- Claim C3: for every enum (tagged-union) shaped input, computing the size
sum fails unconditionally with the `not implemented` panic, and the whole
derivation fails with it, producing no impl and no partial Size-Model. -/
theorem c3_enum_unimplemented (variants : List (String × Fields))
    (ident : String) (generics : Generics) :
    cdr_size_sum (.Enum variants) = .error "not implemented" ∧
    derive_cdr_encoding_size ⟨ident, generics, .Enum variants⟩
      = .error "not implemented" :=
  ⟨rfl, rfl⟩

/-- Claim C4: for every successful derivation, every type parameter of the
generated generics carries the capability bound
`cdr_encoding_size::CdrEncodingSize`, and an instantiation whose argument
for some type parameter does not satisfy that bound is rejected at build
time. -/
theorem c4_generic_bounds (input : DeriveInput) (out : GeneratedImpl)
    (h : derive_cdr_encoding_size input = .ok out)
    (satisfies : TypeRef → String → Bool) (args : List TypeRef) :
    (∀ p ∈ out.generics.params, ∀ tp, p = .Type tp → capBound ∈ tp.bounds) ∧
    (∀ tp arg, (GenericParam.Type tp, arg) ∈ out.generics.params.zip args →
        satisfies arg capBound = false →
        instantiationAccepted satisfies out.generics args = false) := by
  obtain ⟨sum, hs, rfl⟩ : ∃ sum, cdr_size_sum input.data = .ok sum ∧
      out = ⟨input.ident, add_trait_bounds input.generics, sum⟩ := by
    unfold derive_cdr_encoding_size at h
    cases hs : cdr_size_sum input.data with
    | error e => rw [hs] at h; exact absurd h (fun hh => Except.noConfusion hh)
    | ok sum => rw [hs] at h; exact ⟨sum, rfl, (Except.ok.inj h).symm⟩
  have hbound : ∀ p ∈ (add_trait_bounds input.generics).params,
      ∀ tp, p = GenericParam.Type tp → capBound ∈ tp.bounds := by
    intro p hp tp htp
    subst htp
    simp only [add_trait_bounds, List.mem_map] at hp
    obtain ⟨q, _, hfq⟩ := hp
    rcases q with name | tp0 | name
    · exact absurd hfq (fun hh => GenericParam.noConfusion hh)
    · have : tp = ⟨tp0.ident, tp0.bounds ++ [capBound]⟩ :=
        (GenericParam.Type.inj hfq).symm
      rw [this]
      simp
    · exact absurd hfq (fun hh => GenericParam.noConfusion hh)
  refine ⟨hbound, ?_⟩
  intro tp arg hmem hcap
  have htpmem : GenericParam.Type tp ∈ (add_trait_bounds input.generics).params :=
    (List.of_mem_zip hmem).1
  have hcapmem : capBound ∈ tp.bounds := hbound _ htpmem tp rfl
  cases hacc : instantiationAccepted satisfies
      (⟨input.ident, add_trait_bounds input.generics, sum⟩ :
        GeneratedImpl).generics args with
  | false => rfl
  | true =>
      exfalso
      unfold instantiationAccepted at hacc
      have hall := List.all_eq_true.mp hacc (GenericParam.Type tp, arg) hmem
      simp only [] at hall
      have hb := List.all_eq_true.mp hall capBound hcapmem
      rw [hcap] at hb
      exact Bool.noConfusion hb

/-- Claim C5: two structures whose field lists carry the same multiset of
field types (one a permutation of the other) get Size-Models that evaluate
to the same value. -/
theorem c5_field_permutation (fa fb : List Field)
    (env : TypeRef → CdrEncodingMaxSize)
    (h : (fa.map Field.ty).Perm (fb.map Field.ty)) :
    ∃ ea eb, cdr_size_sum (.Struct (.Named fa)) = .ok ea ∧
      cdr_size_sum (.Struct (.Named fb)) = .ok eb ∧
      ea.eval env = eb.eval env := by
  refine ⟨_, _, rfl, rfl, ?_⟩
  rw [SizeExpr.eval_gen, SizeExpr.eval_gen]
  have h2 := (h.map fun t => (env t).toNat).sum_eq
  simpa [List.map_map, Function.comp] using congrArg CdrEncodingMaxSize.Bytes h2

/-- Claim C6: the named-fields case and the positional-fields case of
`cdr_size_sum` are the identical algorithm: on the same field list they
emit the same tokens, and for any two field lists with the same sequence
of field types the generated Size-Models evaluate to the same value. -/
theorem c6_named_unnamed_agree (nfs ufs : List Field)
    (env : TypeRef → CdrEncodingMaxSize)
    (h : nfs.map Field.ty = ufs.map Field.ty) :
    (∀ fs : List Field, cdr_size_sum (.Struct (.Named fs))
        = cdr_size_sum (.Struct (.Unnamed fs))) ∧
    ∃ en eu, cdr_size_sum (.Struct (.Named nfs)) = .ok en ∧
      cdr_size_sum (.Struct (.Unnamed ufs)) = .ok eu ∧
      en.eval env = eu.eval env := by
  refine ⟨fun _ => rfl, _, _, rfl, rfl, ?_⟩
  rw [SizeExpr.eval_gen, SizeExpr.eval_gen]
  have h2 : (nfs.map Field.ty).map (fun t => (env t).toNat)
      = (ufs.map Field.ty).map (fun t => (env t).toNat) := by rw [h]
  simpa [List.map_map, Function.comp] using
    congrArg (fun l => CdrEncodingMaxSize.Bytes l.sum) h2

/-- Claim C7: the Size-Model values form a commutative, associative
additive monoid: `add a b = Bytes (a.n + b.n)`, `add` is commutative and
associative, and `Bytes 0` (that is, `zero`) is a two-sided identity. -/
theorem c7_size_model_monoid :
    (∀ a b : CdrEncodingMaxSize, a.add b = .Bytes (a.toNat + b.toNat)) ∧
    (∀ a b : CdrEncodingMaxSize, a.add b = b.add a) ∧
    (∀ a b c : CdrEncodingMaxSize, (a.add b).add c = a.add (b.add c)) ∧
    (∀ a : CdrEncodingMaxSize, CdrEncodingMaxSize.zero.add a = a ∧
      a.add CdrEncodingMaxSize.zero = a) := by
  refine ⟨?_, ?_, ?_, ?_⟩
  · intro a b; cases a; cases b; rfl
  · intro a b
    cases a with
    | Bytes m => cases b with
      | Bytes n =>
          show CdrEncodingMaxSize.Bytes (m + n) = .Bytes (n + m)
          rw [Nat.add_comm]
  · intro a b c
    cases a with
    | Bytes m => cases b with
      | Bytes n => cases c with
        | Bytes k =>
            show CdrEncodingMaxSize.Bytes (m + n + k) = .Bytes (m + (n + k))
            rw [Nat.add_assoc]
  · intro a
    cases a with
    | Bytes m =>
        constructor
        · show CdrEncodingMaxSize.Bytes (0 + m) = .Bytes m
          rw [Nat.zero_add]
        · rfl

/-- Claim C8: every per-field size-resolution call generated for a struct
carries the span of its field, so when some field type lacks the
capability the build-time resolution fails and reports the span of the
first such field; when every field type has the capability, resolution
succeeds. -/
theorem c8_span_diagnostics (fields : List Field) (e : SizeExpr)
    (hasCap : TypeRef → Bool)
    (h : cdr_size_sum (.Struct (.Named fields)) = .ok e ∨
         cdr_size_sum (.Struct (.Unnamed fields)) = .ok e) :
    e.callList = fields.map (fun f => (f.span, f.ty)) ∧
    (∀ f, firstLacking hasCap fields = some f →
        e.resolve hasCap = .error f.span) ∧
    (firstLacking hasCap fields = none → e.resolve hasCap = .ok ()) := by
  obtain rfl : fields.foldl
      (fun e f => SizeExpr.add e (.call f.span f.ty)) (.bytes 0) = e := by
    rcases h with h | h <;> exact Except.ok.inj h
  refine ⟨?_, ?_, ?_⟩
  · rw [SizeExpr.callList_foldl_add]; rfl
  · intro f hf
    rw [SizeExpr.resolve_foldl_add]
    simp [SizeExpr.resolve, hf]
  · intro hf
    rw [SizeExpr.resolve_foldl_add]
    simp [SizeExpr.resolve, hf]

/-- Claim C9: `add_trait_bounds` modifies only type parameters: the length
and order of the generic parameter list are preserved, lifetime and const
parameters are unchanged at their positions, and each type parameter keeps
its identifier and its pre-existing bounds with the capability bound
appended. -/
theorem c9_add_trait_bounds_frame (g : Generics) :
    (add_trait_bounds g).params.length = g.params.length ∧
    ∀ i (hi : i < g.params.length)
        (hi2 : i < (add_trait_bounds g).params.length),
      (∀ name, g.params.get ⟨i, hi⟩ = .Lifetime name →
          (add_trait_bounds g).params.get ⟨i, hi2⟩ = .Lifetime name) ∧
      (∀ name, g.params.get ⟨i, hi⟩ = .Const name →
          (add_trait_bounds g).params.get ⟨i, hi2⟩ = .Const name) ∧
      (∀ tp, g.params.get ⟨i, hi⟩ = .Type tp →
          (add_trait_bounds g).params.get ⟨i, hi2⟩
            = .Type ⟨tp.ident, tp.bounds ++ [capBound]⟩) := by
  constructor
  · simp [add_trait_bounds]
  · intro i hi hi2
    have hmap : (add_trait_bounds g).params.get ⟨i, hi2⟩
        = match g.params.get ⟨i, hi⟩ with
          | .Type tp => GenericParam.Type ⟨tp.ident, tp.bounds ++ [capBound]⟩
          | other => other := by
      simp [add_trait_bounds, List.get_eq_getElem, List.getElem_map]
    refine ⟨?_, ?_, ?_⟩ <;> intro x hx <;> rw [hmap, hx]

/-- Claim C10: for every union-shaped input (Rust `union`), computing the
size sum fails unconditionally with the same `not implemented` panic as
the enum case, and the whole derivation fails with it. -/
theorem c10_union_unimplemented (fields : List Field)
    (ident : String) (generics : Generics) :
    cdr_size_sum (.Union fields) = .error "not implemented" ∧
    cdr_size_sum (.Union fields) = cdr_size_sum (.Enum []) ∧
    derive_cdr_encoding_size ⟨ident, generics, .Union fields⟩
      = .error "not implemented" :=
  ⟨rfl, rfl, rfl⟩

/-- Witness for claim C4: deriving for `struct Wrapper<T> { inner: T }`
adds the capability bound to `T`, and instantiating with a type lacking
the capability is rejected. -/
theorem c4_generic_bounds_witness :
    capBound ∈ [capBound] ∧
    instantiationAccepted (fun _ _ => false)
      ⟨[.Type ⟨"T", [capBound]⟩]⟩ ["NoCap"] = false :=
  have h := c4_generic_bounds
    ⟨"Wrapper", ⟨[.Type ⟨"T", []⟩]⟩, .Struct (.Named [⟨some "inner", "T", 0⟩])⟩
    ⟨"Wrapper", ⟨[.Type ⟨"T", [capBound]⟩]⟩, .add (.bytes 0) (.call 0 "T")⟩
    rfl (fun _ _ => false) ["NoCap"]
  ⟨h.1 (.Type ⟨"T", [capBound]⟩) (by simp) ⟨"T", [capBound]⟩ rfl,
   h.2 ⟨"T", [capBound]⟩ "NoCap" (by simp) rfl⟩

/-- Witness for claim C5: a struct with fields of types `u8, u16` and one
with `u16, u8` get equal Size-Models under an environment giving `u8` one
byte and `u16` two. -/
theorem c5_field_permutation_witness :
    ∃ ea eb,
      cdr_size_sum (.Struct (.Named
        [⟨some "a", "u8", 0⟩, ⟨some "b", "u16", 1⟩])) = .ok ea ∧
      cdr_size_sum (.Struct (.Named
        [⟨some "c", "u16", 2⟩, ⟨some "d", "u8", 3⟩])) = .ok eb ∧
      SizeExpr.eval (fun t => if t = "u8" then .Bytes 1 else .Bytes 2) ea
        = SizeExpr.eval (fun t => if t = "u8" then .Bytes 1 else .Bytes 2) eb :=
  c5_field_permutation _ _ _ (by decide)

/-- Witness for claim C6: a named struct with one `u8` field and a tuple
struct with one `u8` field get equal Size-Models. -/
theorem c6_named_unnamed_agree_witness :
    ∃ en eu,
      cdr_size_sum (.Struct (.Named [⟨some "x", "u8", 0⟩])) = .ok en ∧
      cdr_size_sum (.Struct (.Unnamed [⟨none, "u8", 5⟩])) = .ok eu ∧
      SizeExpr.eval (fun _ => .Bytes 4) en
        = SizeExpr.eval (fun _ => .Bytes 4) eu :=
  (c6_named_unnamed_agree _ _ _ (by decide)).2

/-- Witness for claim C8: with fields `a: u8` (span 3) and `b: Foo`
(span 7) where only `u8` has the capability, resolution fails reporting
span 7, the span of the offending field. -/
theorem c8_span_diagnostics_witness :
    SizeExpr.resolve (fun t => t == "u8")
      (.add (.add (.bytes 0) (.call 3 "u8")) (.call 7 "Foo")) = .error 7 :=
  (c8_span_diagnostics [⟨some "a", "u8", 3⟩, ⟨some "b", "Foo", 7⟩]
      (.add (.add (.bytes 0) (.call 3 "u8")) (.call 7 "Foo"))
      (fun t => t == "u8") (Or.inl rfl)).2.1
    ⟨some "b", "Foo", 7⟩ (by decide)

/-- Witness for claim C9: on generics `<'la, T: Clone, const N>` the
function keeps the length and order, leaves the lifetime and const
parameters unchanged, and appends the capability bound to `T`. -/
theorem c9_add_trait_bounds_frame_witness :
    (add_trait_bounds ⟨[.Lifetime "la", .Type ⟨"T", ["Clone"]⟩,
        .Const "N"]⟩).params.length = 3 ∧
    (add_trait_bounds ⟨[.Lifetime "la", .Type ⟨"T", ["Clone"]⟩,
        .Const "N"]⟩).params.get ⟨0, by decide⟩ = .Lifetime "la" ∧
    (add_trait_bounds ⟨[.Lifetime "la", .Type ⟨"T", ["Clone"]⟩,
        .Const "N"]⟩).params.get ⟨1, by decide⟩
      = .Type ⟨"T", ["Clone", capBound]⟩ ∧
    (add_trait_bounds ⟨[.Lifetime "la", .Type ⟨"T", ["Clone"]⟩,
        .Const "N"]⟩).params.get ⟨2, by decide⟩ = .Const "N" :=
  have h := c9_add_trait_bounds_frame
    ⟨[.Lifetime "la", .Type ⟨"T", ["Clone"]⟩, .Const "N"]⟩
  ⟨h.1, (h.2 0 (by decide) (by decide)).1 "la" rfl,
   (h.2 1 (by decide) (by decide)).2.2 ⟨"T", ["Clone"]⟩ rfl,
   (h.2 2 (by decide) (by decide)).2.1 "N" rfl⟩

end CdrDerive
